import Mathlib

/-!
Verification of the grammar-metadata extractor in `internal/pom.go` of
bxthomas/antlr4-grammars.

The Go source is shallowly embedded: pure string helpers from the `strings`
and `path/filepath` packages are re-implemented over `List Char`, file-system
access (`os.Stat`, file contents, `filepath.Glob`) is passed in as explicit
oracles, and the XML token stream consumed by `ParsePom` is modelled as the
list of tokens the decoding loop actually observes.  Go panics are modelled
by the `GoResult.aborts` constructor; fallible functions return `Except`.
-/

namespace Pom

instance {ε α : Type} [DecidableEq ε] [DecidableEq α] : DecidableEq (Except ε α) := fun x y =>
  match x, y with
  | .ok a, .ok b => if h : a = b then isTrue (by rw [h]) else isFalse (by simp [h])
  | .error a, .error b => if h : a = b then isTrue (by rw [h]) else isFalse (by simp [h])
  | .ok _, .error _ => isFalse nofun
  | .error _, .ok _ => isFalse nofun

/-- Go `unicode.IsSpace`: the Unicode white-space code points. -/
def goIsSpace (c : Char) : Bool :=
  c = ' ' || c = '\t' || c = '\n' || c.toNat = 11 || c.toNat = 12 || c = '\r' ||
  c.toNat = 133 || c.toNat = 160 || c.toNat = 0x1680 ||
  (0x2000 ≤ c.toNat && c.toNat ≤ 0x200A) || c.toNat = 0x2028 || c.toNat = 0x2029 ||
  c.toNat = 0x202F || c.toNat = 0x205F || c.toNat = 0x3000

/-- Go `strings.TrimSpace`: drop leading and trailing white space. -/
def goTrimSpace (s : String) : String :=
  String.mk (((s.data.dropWhile goIsSpace).reverse.dropWhile goIsSpace).reverse)

/-- Go `strings.HasPrefix`. -/
def goStartsWith (s p : String) : Bool := p.data.isPrefixOf s.data

/-- Go `strings.HasSuffix`. -/
def goHasSuffix (s suf : String) : Bool := suf.data.isSuffixOf s.data

/-- Go `strings.TrimSuffix`: remove the trailing `suf` if present, else unchanged. -/
def goTrimSuffix (s suf : String) : String :=
  if goHasSuffix s suf then String.mk (s.data.take (s.data.length - suf.data.length)) else s

/-- ASCII fragment of Go `unicode.ToLower` (grammar names are ASCII identifiers). -/
def goToLowerChar (c : Char) : Char :=
  if 'A' ≤ c ∧ c ≤ 'Z' then Char.ofNat (c.toNat + 32) else c

/-- Go `strings.ToLower` (ASCII fragment). -/
def goToLower (s : String) : String := String.mk (s.data.map goToLowerChar)

/-- Helper for `goFields`: split a character list around runs of white space,
`cur` holding the (reversed) word being accumulated. -/
def fieldsAux : List Char → List Char → List (List Char)
  | cur, [] => if cur.isEmpty then [] else [cur.reverse]
  | cur, c :: cs =>
    if goIsSpace c then
      if cur.isEmpty then fieldsAux [] cs else cur.reverse :: fieldsAux [] cs
    else fieldsAux (c :: cur) cs

/-- Go `strings.Fields`: the white-space-separated words of `s`. -/
def goFields (s : String) : List String := (fieldsAux [] s.data).map String.mk

/-- Truncation used by `ParseG4` on the matched line at its first semicolon:
`strings.Index(line, ";")` followed by the slice `line[:semi]` is exactly
taking characters up to the first `;` (the line is unchanged when no
semicolon occurs, as in the Go code guarded by `semi >= 0`). -/
def goCutAtSemi (s : String) : String := String.mk (s.data.takeWhile (fun c => c ≠ ';'))

/-- Helper for `goReplaceAll`; `fuel` is initialised to the length of the
subject list, which suffices because each step consumes at least one
character of it.  `pat` is non-empty at every call site. -/
def replaceAllAux (pat new : List Char) : Nat → List Char → List Char
  | _, [] => []
  | 0, s => s
  | fuel + 1, c :: rest =>
    if pat.isPrefixOf (c :: rest) then
      new ++ replaceAllAux pat new fuel ((c :: rest).drop pat.length)
    else
      c :: replaceAllAux pat new fuel rest

/-- Go `strings.Replace(s, pat, new, -1)`: replace every non-overlapping
occurrence of `pat`, scanning left to right.  With an empty `pat`, Go
inserts `new` before every rune and at the end. -/
def goReplaceAll (s pat new : String) : String :=
  if pat.data = [] then
    String.mk (new.data ++ s.data.foldr (fun c acc => c :: (new.data ++ acc)) [])
  else
    String.mk (replaceAllAux pat.data new.data s.data.length s.data)

/-- Spec-side definition, following the words of the claim under test:
substitute only the FIRST occurrence of `pat` in `s`.  Used solely to compare
the spec's description of the variant-path rule against the code's
`strings.Replace(file, ".g4", ".GoTarget.g4", -1)`. -/
def replaceFirstAux (pat new : List Char) : Nat → List Char → List Char
  | _, [] => []
  | 0, s => s
  | fuel + 1, c :: rest =>
    if pat.isPrefixOf (c :: rest) then
      new ++ (c :: rest).drop pat.length
    else
      c :: replaceFirstAux pat new fuel rest

/-- Spec-side: replace the first occurrence of `pat` in `s` with `new`. -/
def specReplaceFirst (s pat new : String) : String :=
  if pat.data = [] then s
  else String.mk (replaceFirstAux pat.data new.data s.data.length s.data)

/-- Split a character list at every occurrence of `sep` (the semantics of
`strings.Split(s, "/")`): `splitCharAux sep [] s.data`. -/
def splitCharAux (sep : Char) : List Char → List Char → List (List Char)
  | cur, [] => [cur.reverse]
  | cur, c :: cs =>
    if c = sep then cur.reverse :: splitCharAux sep [] cs
    else splitCharAux sep (c :: cur) cs

/-- Interleave `/` between character-list components (`strings.Join(out, "/")`). -/
def joinSlash : List (List Char) → List Char
  | [] => []
  | [x] => x
  | x :: xs => x ++ '/' :: joinSlash xs

/-- Element processing of Go `path/filepath.Clean`: `acc` holds the cleaned
components in reverse; empty and `.` components vanish, `..` pops a
component when possible (it is kept at the front of a relative path and
dropped at the root of an absolute one). -/
def cleanComponents (rooted : Bool) : List String → List String → List String
  | acc, [] => acc.reverse
  | acc, c :: cs =>
    if c = "" ∨ c = "." then cleanComponents rooted acc cs
    else if c = ".." then
      match acc with
      | [] => if rooted then cleanComponents rooted [] cs else cleanComponents rooted [".."] cs
      | a :: as' =>
        if a = ".." then cleanComponents rooted (".." :: a :: as') cs
        else cleanComponents rooted as' cs
  else cleanComponents rooted (c :: acc) cs

/-- Go `path/filepath.Clean` (Unix paths). -/
def goClean (p : String) : String :=
  if p = "" then "."
  else
    let rooted := goStartsWith p "/"
    let out := cleanComponents rooted [] ((splitCharAux '/' [] p.data).map String.mk)
    let joined := String.mk (joinSlash (out.map String.data))
    if rooted then "/" ++ joined
    else if joined = "" then "." else joined

/-- Go `path/filepath.Join(a, b)`: leading empty elements are skipped, the
rest are joined with `/` and cleaned. -/
def goJoin (a b : String) : String :=
  if a = "" then (if b = "" then "" else goClean b)
  else goClean (a ++ "/" ++ b)

/-- Go `path/filepath.Join(a, b, c)`. -/
def goJoin3 (a b c : String) : String :=
  if a = "" then goJoin b c
  else goClean (a ++ "/" ++ b ++ "/" ++ c)

/-- Go `path/filepath.Dir`: everything up to and including the last slash,
cleaned (`.` when there is no slash). -/
def goDir (p : String) : String :=
  goClean (String.mk ((p.data.reverse.dropWhile (fun c => c ≠ '/')).reverse))

/-- Go `strings.Repeat(s, n)`. -/
def goRepeat (s : String) (n : Nat) : String := String.join (List.replicate n s)

/-- Go `strings.Count(s, "/")`: the slash count (single-character pattern). -/
def goCountSlash (s : String) : Nat := s.data.count '/'

/-- The `Grammar` struct: one classified grammar-source file.  The Go field
`Type` is rendered `Typ` (`Type` is reserved in Lean). -/
structure Grammar where
  Name : String
  Filename : String
  Typ : String
deriving DecidableEq, Repr

/-- The `Project` struct: the aggregate result of parsing one `pom.xml`. -/
structure Project where
  FileName : String
  LongName : String
  Includes : List String
  Grammars : List Grammar
  EntryPoint : String
  ExampleRoot : String
  Examples : List String
  CaseInsensitiveType : String
  FoundAntlr4MavenPlugin : Bool
deriving DecidableEq, Repr

/-- Outcome of a Go function that may `panic`: `aborts msg` models a panic
with the given message (not a typed error value returned to the caller). -/
inductive GoResult (α : Type) where
  | ok (val : α)
  | aborts (msg : String)
deriving DecidableEq, Repr

/-- Model of `Project.findGrammarOfType`: first grammar of the given type, if any. -/
def findGrammarOfType (p : Project) (t : String) : Option Grammar :=
  p.Grammars.find? (fun g => g.Typ == t)

/-- Message of the `panic(fmt.Sprintf("%q does not contain a parser", p.FileName))`
calls (`%q` escaping elided: file names here contain no quotes). -/
def panicNoParser (p : Project) : String :=
  "\"" ++ p.FileName ++ "\" does not contain a parser"

/-- Message of the corresponding lexer panic. -/
def panicNoLexer (p : Project) : String :=
  "\"" ++ p.FileName ++ "\" does not contain a lexer"

/-- Model of `Project.ListenerName`. -/
def Project.ListenerName (p : Project) : GoResult String :=
  match findGrammarOfType p "PARSER" with
  | some g => .ok (g.Name ++ "Listener")
  | none =>
    match findGrammarOfType p "COMBINED" with
    | some g => .ok (g.Name ++ "Listener")
    | none => .aborts (panicNoParser p)

/-- Model of `Project.grammarParserName`. -/
def Project.grammarParserName (p : Project) : GoResult String :=
  match findGrammarOfType p "PARSER" with
  | some g => .ok (goTrimSuffix g.Name "Parser")
  | none =>
    match findGrammarOfType p "COMBINED" with
    | some g => .ok g.Name
    | none => .aborts (panicNoParser p)

/-- Model of `Project.grammarLexerName`. -/
def Project.grammarLexerName (p : Project) : GoResult String :=
  match findGrammarOfType p "LEXER" with
  | some g => .ok (goTrimSuffix g.Name "Lexer")
  | none =>
    match findGrammarOfType p "COMBINED" with
    | some g => .ok g.Name
    | none => .aborts (panicNoLexer p)

/-- Model of `Project.ParserName` (a panic in `grammarParserName` propagates). -/
def Project.ParserName (p : Project) : GoResult String :=
  match p.grammarParserName with
  | .ok s => .ok (s ++ "Parser")
  | .aborts m => .aborts m

/-- Model of `Project.LexerName`. -/
def Project.LexerName (p : Project) : GoResult String :=
  match p.grammarLexerName with
  | .ok s => .ok (s ++ "Lexer")
  | .aborts m => .aborts m

/-- Model of `Grammar.GeneratedFilenames`: the generated file names for one grammar;
an unknown `Type` panics. -/
def Grammar.GeneratedFilenames (g : Grammar) : GoResult (List String) :=
  if g.Typ = "LEXER" then
    .ok [goToLower (goTrimSuffix g.Name "Lexer") ++ "_lexer.go"]
  else if g.Typ = "PARSER" then
    let name := goToLower g.Name
    let nameP := goToLower (goTrimSuffix g.Name "Parser")
    .ok [name ++ "_base_listener.go", name ++ "_listener.go", nameP ++ "_parser.go"]
  else if g.Typ = "COMBINED" then
    let name := goToLower g.Name
    .ok [name ++ "_base_listener.go", name ++ "_listener.go",
         name ++ "_parser.go", name ++ "_lexer.go"]
  else
    .aborts ("unknown grammar type \"" ++ g.Typ ++ "\"")

/-- Helper for `Project.GeneratedFilenames`: concatenate each grammar's
files in order, propagating a panic from any grammar. -/
def genFilesAux : List Grammar → GoResult (List String)
  | [] => .ok []
  | g :: gs =>
    match g.GeneratedFilenames with
    | .aborts m => .aborts m
    | .ok fs =>
      match genFilesAux gs with
      | .aborts m => .aborts m
      | .ok rest => .ok (fs ++ rest)

/-- Model of `Project.GeneratedFilenames`: concatenation over `Grammars` in order. -/
def Project.GeneratedFilenames (p : Project) : GoResult (List String) :=
  genFilesAux p.Grammars

/-- Errors of `ParseG4`: `parseErr line` is
`fmt.Errorf("failed to parse grammar name: %q", line)` (carrying the
truncated line), `notFound` is
`errors.New("failed to find fields of interest in grammar")`. -/
inductive G4Err where
  | parseErr (line : String)
  | notFound
deriving DecidableEq, Repr

/-- The `t` computed for one trimmed line inside `ParseG4`'s loop: the Go
code uses the empty string as the "no keyword" sentinel. -/
def headerType (line : String) : String :=
  if goStartsWith line "grammar" then "COMBINED"
  else if goStartsWith line "lexer" then "LEXER"
  else if goStartsWith line "parser" then "PARSER"
  else ""

/-- Model of `ParseG4`, over the list of lines the `bufio.Scanner` yields (the file
has been opened successfully; read errors are outside the model since the
lines are given). -/
def parseG4 (path : String) : List String → Except G4Err Grammar
  | [] => .error .notFound
  | l :: rest =>
    let line := goTrimSpace l
    let t := headerType line
    if t ≠ "" then
      let line2 := goCutAtSemi line
      let parts := goFields line2
      if h : parts.length < 2 then .error (.parseErr line2)
      else
        .ok { Name := parts.getLast (List.length_pos.mp (by omega)),
              Filename := path, Typ := t }
    else parseG4 path rest

/-- One item of the XML token stream as observed by `ParsePom`'s loop: a
start element carries the outcome of `decoder.DecodeElement` on its body
(invoked only when the local name is recognized); every other token kind is
skipped by the loop.  Tokens after a tokenizer error are never seen, so the
list holds exactly the successfully obtained tokens. -/
inductive XmlTok where
  | startElem (localName : String) (body : Except String String)
  | otherTok
deriving DecidableEq

/-- The file-system and file-content oracles `ParsePom` consults:
`fs` models `fileExists` (a `os.Stat` probe), `readLines` the line contents
of a grammar file handed to `ParseG4`, and `glob` the result of
`filepath.Glob`. -/
structure PomEnv where
  fs : String → Bool
  readLines : String → List String
  glob : String → Except String (List String)

/-- The path a `grammars`/`include` reference resolves to: joined to the
descriptor's directory, then "upgraded" to the `.GoTarget.g4` variant when
that variant exists on disk. -/
def resolvedInclude (env : PomEnv) (dir ref : String) : String :=
  let file := goJoin dir ref
  let betterfile := goReplaceAll file ".g4" ".GoTarget.g4"
  if env.fs betterfile then betterfile else file

/-- Processing of one `grammars`/`include` reference (the body of that case
in `ParsePom`): a missing file is dropped with a warning, a duplicate of an
existing `Includes` entry is skipped, otherwise the path is appended to
`Includes` and, when `ParseG4` succeeds on it, the grammar to `Grammars`. -/
def includeStep (env : PomEnv) (dir : String) (p : Project) (ref : String) : Project :=
  let file := resolvedInclude env dir ref
  if !env.fs file then p
  else if p.Includes.contains file then p
  else
    let p' := { p with Includes := p.Includes ++ [file] }
    match parseG4 file (env.readLines file) with
    | .error _ => p'
    | .ok g => { p' with Grammars := p'.Grammars ++ [g] }

/-- One iteration of `ParsePom`'s token loop.  A decode failure of a
recognized element's body is fatal (`.error`), as is a `Glob` failure;
everything else updates the project. -/
def pomStep (env : PomEnv) (dir : String) (p : Project) (t : XmlTok) : Except String Project :=
  match t with
  | .otherTok => .ok p
  | .startElem nm body =>
    if nm = "artifactId" then
      match body with
      | .error e => .error e
      | .ok name =>
        .ok { p with FoundAntlr4MavenPlugin :=
                p.FoundAntlr4MavenPlugin || (name == "antlr4-maven-plugin") }
    else if nm = "grammars" ∨ nm = "include" then
      match body with
      | .error e => .error e
      | .ok ref => .ok (includeStep env dir p ref)
    else if nm = "grammarName" then
      match body with
      | .error e => .error e
      | .ok s => .ok { p with LongName := s }
    else if nm = "entryPoint" then
      match body with
      | .error e => .error e
      | .ok s => .ok { p with EntryPoint := s }
    else if nm = "exampleFiles" then
      match body with
      | .error e => .error e
      | .ok f =>
        match env.glob (goJoin3 dir f "*") with
        | .error e => .error e
        | .ok examples =>
          .ok { p with Examples := examples,
                       ExampleRoot := goRepeat "../" (goCountSlash dir) }
    else if nm = "caseInsensitiveType" then
      match body with
      | .error e => .error e
      | .ok s => .ok { p with CaseInsensitiveType := s }
    else .ok p

/-- Token loop of `ParsePom` over the obtained tokens. -/
def parsePomLoop (env : PomEnv) (dir : String) : Project → List XmlTok → Except String Project
  | p, [] => .ok p
  | p, t :: rest =>
    match pomStep env dir p t with
    | .error e => .error e
    | .ok q => parsePomLoop env dir q rest

/-- The `Project` literal `ParsePom` starts from. -/
def emptyProject (path : String) : Project :=
  { FileName := path, LongName := "", Includes := [], Grammars := [],
    EntryPoint := "", ExampleRoot := "", Examples := [],
    CaseInsensitiveType := "", FoundAntlr4MavenPlugin := false }

/-- Model of `ParsePom` (the descriptor opened successfully).  `streamErr` is the
error, if any, with which `decoder.Token()` ended the stream: the Go loop
binds that error to `_` and breaks on the nil token, so the parameter is
deliberately unused — the loop result is returned with a nil error either
way. -/
def ParsePom (env : PomEnv) (path : String) (toks : List XmlTok)
    (streamErr : Option String) : Except String Project :=
  let _ := streamErr
  parsePomLoop env (goDir path) (emptyProject path) toks

/-- The local element names `ParsePom`'s switch recognizes. -/
def recognizedElem (nm : String) : Bool :=
  nm = "artifactId" || nm = "grammars" || nm = "include" || nm = "grammarName" ||
  nm = "entryPoint" || nm = "exampleFiles" || nm = "caseInsensitiveType"

/-- A project holding the split form: PARSER grammar `FooParser` followed by
LEXER grammar `FooLexer`. -/
def projSplitFoo : Project :=
  { emptyProject "split" with
    Grammars := [⟨"FooParser", "FooParser.g4", "PARSER"⟩,
                 ⟨"FooLexer", "FooLexer.g4", "LEXER"⟩] }

/-- A project holding a single COMBINED grammar named `Foo`. -/
def projCombFoo : Project :=
  { emptyProject "comb" with Grammars := [⟨"Foo", "Foo.g4", "COMBINED"⟩] }

/-- A project whose only grammar is a LEXER. -/
def projLexOnly : Project :=
  { emptyProject "proj" with Grammars := [⟨"FooLexer", "FooLexer.g4", "LEXER"⟩] }

/-- The invariant `ParsePom` maintains on `Includes` and `Grammars`:
no duplicate include paths, no duplicate grammar files, and every grammar
came from an include. -/
def includesInv (p : Project) : Prop :=
  p.Includes.Nodup ∧ (p.Grammars.map (fun g => g.Filename)).Nodup ∧
    ∀ f ∈ p.Grammars.map (fun g => g.Filename), f ∈ p.Includes

/-- An environment with an empty file system. -/
def envTriv : PomEnv :=
  { fs := fun _ => false, readLines := fun _ => [], glob := fun _ => .ok [] }

/-- An environment where exactly the grammar file `d/A.g4` exists and holds
a combined grammar header. -/
def envDup : PomEnv :=
  { fs := fun s => s == "d/A.g4", readLines := fun _ => ["grammar A;"],
    glob := fun _ => .ok [] }

/-- An environment where both the all-occurrences variant
`d/a.GoTarget.g4.GoTarget.g4` and the first-occurrence variant
`d/a.GoTarget.g4.g4` of the reference `a.g4.g4` exist on disk. -/
def envC4 : PomEnv :=
  { fs := fun s => s == "d/a.GoTarget.g4.GoTarget.g4" || s == "d/a.GoTarget.g4.g4",
    readLines := fun _ => ["grammar X;"], glob := fun _ => .ok [] }

/-- The project `ParsePom` produces in `envC4` from a single include of
`a.g4.g4`. -/
def pC4 : Project :=
  { emptyProject "d/pom.xml" with
    Includes := ["d/a.GoTarget.g4.GoTarget.g4"],
    Grammars := [⟨"X", "d/a.GoTarget.g4.GoTarget.g4", "COMBINED"⟩] }

/-- The project `ParsePom` produces in `envDup` from two identical includes
of `A.g4`. -/
def pDup : Project :=
  { emptyProject "d/pom.xml" with
    Includes := ["d/A.g4"],
    Grammars := [⟨"A", "d/A.g4", "COMBINED"⟩] }

/-- C1: the claim is false — for the split form (PARSER `FooParser`, LEXER
`FooLexer`) `GeneratedFilenames` does NOT return the same four names as the
COMBINED `Foo` form: the two listener names are derived from the parser
grammar's full lower-cased name `fooparser`, not from `foo`. -/
theorem C1_counterexample :
    Project.GeneratedFilenames projSplitFoo ≠ Project.GeneratedFilenames projCombFoo := by
  decide

/-- C1 (amended): the split form yields
`[fooparser_base_listener.go, fooparser_listener.go, foo_parser.go, foo_lexer.go]`
while the COMBINED form yields
`[foo_base_listener.go, foo_listener.go, foo_parser.go, foo_lexer.go]`; only
the last two names (parser and lexer files) agree, for any grammar file
paths. -/
theorem C1_split_vs_combined : ∀ f1 f2 f3 : String,
    Project.GeneratedFilenames
        { emptyProject "s" with
          Grammars := [⟨"FooParser", f1, "PARSER"⟩, ⟨"FooLexer", f2, "LEXER"⟩] }
      = .ok ["fooparser_base_listener.go", "fooparser_listener.go",
             "foo_parser.go", "foo_lexer.go"] ∧
    Project.GeneratedFilenames
        { emptyProject "c" with Grammars := [⟨"Foo", f3, "COMBINED"⟩] }
      = .ok ["foo_base_listener.go", "foo_listener.go",
             "foo_parser.go", "foo_lexer.go"] ∧
    List.drop 2 ["fooparser_base_listener.go", "fooparser_listener.go",
                 "foo_parser.go", "foo_lexer.go"]
      = List.drop 2 ["foo_base_listener.go", "foo_listener.go",
                     "foo_parser.go", "foo_lexer.go"] := by
  intro f1 f2 f3
  exact ⟨rfl, rfl, rfl⟩

/-- C2: the claim is false — the COMBINED `Foo` project's generated names
carry the `.go` extension, so the returned list is not
`[foo_base_listener, foo_listener, foo_parser, foo_lexer]`. -/
theorem C2_counterexample :
    Project.GeneratedFilenames projCombFoo
      ≠ .ok ["foo_base_listener", "foo_listener", "foo_parser", "foo_lexer"] := by
  decide

/-- C2 (amended): for a project whose grammars are exactly one COMBINED
grammar named `Foo`, `GeneratedFilenames` returns exactly
`[foo_base_listener.go, foo_listener.go, foo_parser.go, foo_lexer.go]`,
in that order. -/
theorem C2_combined_filenames : ∀ (p : Project) (fn : String),
    p.Grammars = [⟨"Foo", fn, "COMBINED"⟩] →
    Project.GeneratedFilenames p
      = .ok ["foo_base_listener.go", "foo_listener.go",
             "foo_parser.go", "foo_lexer.go"] := by
  intro p fn h
  unfold Project.GeneratedFilenames
  rw [h]
  rfl

/-- Witness for C2 (amended) at the concrete COMBINED project. -/
theorem C2_combined_filenames_witness :
    Project.GeneratedFilenames projCombFoo
      = .ok ["foo_base_listener.go", "foo_listener.go",
             "foo_parser.go", "foo_lexer.go"] :=
  C2_combined_filenames projCombFoo "Foo.g4" rfl

/-- C3: the claim is false — for a LEXER grammar the code strips a trailing
`Lexer` from the name before lower-casing and adds the `.go` extension:
`FooLexer` yields `foo_lexer.go`, not `foolexer_lexer`. -/
theorem C3_counterexample :
    Grammar.GeneratedFilenames ⟨"FooLexer", "f.g4", "LEXER"⟩ = .ok ["foo_lexer.go"] ∧
    goToLower "FooLexer" ++ "_lexer" = "foolexer_lexer" ∧
    Grammar.GeneratedFilenames ⟨"FooLexer", "f.g4", "LEXER"⟩ ≠ .ok ["foolexer_lexer"] := by
  decide

/-- C3 (amended): for every grammar of type LEXER, `GeneratedFilenames`
emits exactly one name: the lower-cased name with a trailing `Lexer`
stripped, followed by `_lexer.go`. -/
theorem C3_lexer_filename : ∀ g : Grammar, g.Typ = "LEXER" →
    g.GeneratedFilenames = .ok [goToLower (goTrimSuffix g.Name "Lexer") ++ "_lexer.go"] := by
  intro g h
  unfold Grammar.GeneratedFilenames
  rw [h]
  simp

/-- Witness for C3 (amended) at the grammar `FooLexer`. -/
theorem C3_lexer_filename_witness :
    Grammar.GeneratedFilenames ⟨"FooLexer", "f2.g4", "LEXER"⟩
      = .ok [goToLower (goTrimSuffix "FooLexer" "Lexer") ++ "_lexer.go"] :=
  C3_lexer_filename ⟨"FooLexer", "f2.g4", "LEXER"⟩ rfl

/-- C7: the claim is false — on a project containing only a LEXER grammar,
`ListenerName` and `grammarParserName` do not surface a typed NoParserError
result: they panic (modeled by `GoResult.aborts`), aborting the call. -/
theorem C7_counterexample :
    Project.ListenerName projLexOnly = .aborts "\"proj\" does not contain a parser" ∧
    Project.grammarParserName projLexOnly = .aborts "\"proj\" does not contain a parser" := by
  decide

/-- C7 (amended): whenever the project's grammars contain no PARSER and no
COMBINED grammar, `ListenerName` and `grammarParserName` panic with the
message `"<FileName>" does not contain a parser` — a process abort, not a
typed error value. -/
theorem C7_no_parser_panics : ∀ p : Project,
    (∀ g ∈ p.Grammars, g.Typ ≠ "PARSER" ∧ g.Typ ≠ "COMBINED") →
    Project.ListenerName p = .aborts (panicNoParser p) ∧
    Project.grammarParserName p = .aborts (panicNoParser p) := by
  intro p h
  have hP : findGrammarOfType p "PARSER" = none := by
    unfold findGrammarOfType
    rw [List.find?_eq_none]
    intro g hg
    simpa using (h g hg).1
  have hC : findGrammarOfType p "COMBINED" = none := by
    unfold findGrammarOfType
    rw [List.find?_eq_none]
    intro g hg
    simpa using (h g hg).2
  exact ⟨by simp [Project.ListenerName, hP, hC], by simp [Project.grammarParserName, hP, hC]⟩

/-- Witness for C7 (amended) at the LEXER-only project. -/
theorem C7_no_parser_panics_witness :
    Project.ListenerName projLexOnly = .aborts (panicNoParser projLexOnly) ∧
    Project.grammarParserName projLexOnly = .aborts (panicNoParser projLexOnly) :=
  C7_no_parser_panics projLexOnly (by decide)

/-- A line without a header keyword is skipped by `parseG4`. -/
theorem parseG4_skip (path a : String) (as : List String)
    (ha : headerType (goTrimSpace a) = "") :
    parseG4 path (a :: as) = parseG4 path as := by
  simp [parseG4, ha]

/-- A header-keyword line whose truncated split has fewer than two tokens
makes `parseG4` return the parse error carrying the truncated line. -/
theorem parseG4_short (path a : String) (as : List String)
    (ha : headerType (goTrimSpace a) ≠ "")
    (hlen : (goFields (goCutAtSemi (goTrimSpace a))).length < 2) :
    parseG4 path (a :: as) = .error (.parseErr (goCutAtSemi (goTrimSpace a))) := by
  simp [parseG4, ha, hlen]

/-- A header-keyword line with at least two tokens makes `parseG4` return a
grammar whose name is the last token of the truncated split. -/
theorem parseG4_found (path a : String) (as : List String)
    (ha : headerType (goTrimSpace a) ≠ "")
    (hlen : 2 ≤ (goFields (goCutAtSemi (goTrimSpace a))).length) :
    ∃ nm, (goFields (goCutAtSemi (goTrimSpace a))).getLast? = some nm ∧
      parseG4 path (a :: as)
        = .ok { Name := nm, Filename := path, Typ := headerType (goTrimSpace a) } := by
  have hne : goFields (goCutAtSemi (goTrimSpace a)) ≠ [] := by
    intro h
    rw [h] at hlen
    simp at hlen
  have hnl : ¬ (goFields (goCutAtSemi (goTrimSpace a))).length < 2 := not_lt.mpr hlen
  refine ⟨(goFields (goCutAtSemi (goTrimSpace a))).getLast hne,
    List.getLast?_eq_getLast _ hne, ?_⟩
  simp [parseG4, ha, hnl]

/-- C5: `parseG4` classifies the first line whose trimmed text starts with
`grammar` (COMBINED), else `lexer` (LEXER), else `parser` (PARSER), in that
priority order; the matched line is truncated at its first `;`, split on
white space, and the grammar's name is the last token — in particular the
line `lexer grammar FooLexer;` yields type LEXER and name `FooLexer`. -/
theorem C5_header_scanner :
    (∀ s : String,
      (goStartsWith s "grammar" = true → headerType s = "COMBINED") ∧
      (goStartsWith s "grammar" = false → goStartsWith s "lexer" = true →
        headerType s = "LEXER") ∧
      (goStartsWith s "grammar" = false → goStartsWith s "lexer" = false →
        goStartsWith s "parser" = true → headerType s = "PARSER") ∧
      (goStartsWith s "grammar" = false → goStartsWith s "lexer" = false →
        goStartsWith s "parser" = false → headerType s = "")) ∧
    (∀ (path : String) (pre : List String) (line : String) (rest : List String),
      (∀ l ∈ pre, headerType (goTrimSpace l) = "") →
      headerType (goTrimSpace line) ≠ "" →
      2 ≤ (goFields (goCutAtSemi (goTrimSpace line))).length →
      ∃ nm, (goFields (goCutAtSemi (goTrimSpace line))).getLast? = some nm ∧
        parseG4 path (pre ++ line :: rest)
          = .ok { Name := nm, Filename := path, Typ := headerType (goTrimSpace line) }) ∧
    parseG4 "f.g4" ["lexer grammar FooLexer;"]
      = .ok { Name := "FooLexer", Filename := "f.g4", Typ := "LEXER" } := by
  refine ⟨?_, ?_, by decide⟩
  · intro s
    refine ⟨fun h => by simp [headerType, h], fun h1 h2 => by simp [headerType, h1, h2],
      fun h1 h2 h3 => by simp [headerType, h1, h2, h3],
      fun h1 h2 h3 => by simp [headerType, h1, h2, h3]⟩
  · intro path pre line rest hpre ht hlen
    induction pre with
    | nil =>
      simpa using parseG4_found path line rest ht hlen
    | cons a as ih =>
      have ha := hpre a (List.mem_cons_self a as)
      have has : ∀ l ∈ as, headerType (goTrimSpace l) = "" :=
        fun l hl => hpre l (List.mem_cons_of_mem a hl)
      rw [List.cons_append, parseG4_skip path a _ ha]
      exact ih has

/-- Witness for C5 at a concrete file: a comment line is skipped, then the
split-parser header line is classified. -/
theorem C5_header_scanner_witness :
    parseG4 "g.g4" ["// header comment", "parser grammar LibParser;"]
      = .ok { Name := "LibParser", Filename := "g.g4", Typ := "PARSER" } := by
  obtain ⟨nm, hnm, hp⟩ := C5_header_scanner.2.1 "g.g4" ["// header comment"]
    "parser grammar LibParser;" [] (by decide) (by decide) (by decide)
  have h1 : (goFields (goCutAtSemi (goTrimSpace "parser grammar LibParser;"))).getLast?
      = some "LibParser" := by decide
  rw [h1] at hnm
  obtain rfl := Option.some.inj hnm
  have h2 : headerType (goTrimSpace "parser grammar LibParser;") = "PARSER" := by decide
  rw [h2] at hp
  exact hp

/-- C6: `parseG4` fails with the parse error exactly when its first
header-keyword line has fewer than two tokens after truncation and
splitting, and fails with the not-found error exactly when no line carries a
header keyword; in both cases no grammar is returned (the result is
`.error`). -/
theorem C6_header_scan_failures : ∀ (path : String) (lines : List String),
    (parseG4 path lines = .error G4Err.notFound ↔
      ∀ l ∈ lines, headerType (goTrimSpace l) = "") ∧
    ((∃ msg, parseG4 path lines = .error (G4Err.parseErr msg)) ↔
      ∃ pre line rest, lines = pre ++ line :: rest ∧
        (∀ l ∈ pre, headerType (goTrimSpace l) = "") ∧
        headerType (goTrimSpace line) ≠ "" ∧
        (goFields (goCutAtSemi (goTrimSpace line))).length < 2) := by
  intro path lines
  induction lines with
  | nil =>
    constructor
    · simp [parseG4]
    · constructor
      · rintro ⟨msg, h⟩
        simp [parseG4] at h
      · rintro ⟨pre, line, rest, h, -⟩
        exact absurd h.symm (List.append_ne_nil_of_right_ne_nil pre (List.cons_ne_nil line rest))
  | cons a as ih =>
    by_cases ha : headerType (goTrimSpace a) = ""
    · rw [parseG4_skip path a as ha]
      constructor
      · rw [ih.1]
        simp [List.forall_mem_cons, ha]
      · rw [ih.2]
        constructor
        · rintro ⟨pre, line, rest, hdec, hpre, hline, hlen⟩
          exact ⟨a :: pre, line, rest, by rw [hdec, List.cons_append],
            List.forall_mem_cons.mpr ⟨ha, hpre⟩, hline, hlen⟩
        · rintro ⟨pre, line, rest, hdec, hpre, hline, hlen⟩
          cases pre with
          | nil =>
            simp only [List.nil_append, List.cons.injEq] at hdec
            rw [hdec.1] at ha
            exact absurd ha hline
          | cons p ps =>
            simp only [List.cons_append, List.cons.injEq] at hdec
            exact ⟨ps, line, rest, hdec.2,
              fun l hl => hpre l (List.mem_cons_of_mem p hl), hline, hlen⟩
    · by_cases hlen : (goFields (goCutAtSemi (goTrimSpace a))).length < 2
      · rw [parseG4_short path a as ha hlen]
        constructor
        · constructor
          · intro h
            simp at h
          · intro h
            exact absurd (h a (List.mem_cons_self a as)) ha
        · constructor
          · intro _
            exact ⟨[], a, as, rfl, by simp, ha, hlen⟩
          · intro _
            exact ⟨goCutAtSemi (goTrimSpace a), rfl⟩
      · obtain ⟨nm, -, hok⟩ := parseG4_found path a as ha (not_lt.mp hlen)
        rw [hok]
        constructor
        · constructor
          · intro h
            simp at h
          · intro h
            exact absurd (h a (List.mem_cons_self a as)) ha
        · constructor
          · rintro ⟨msg, h⟩
            simp at h
          · rintro ⟨pre, line, rest, hdec, hpre, hline, hlen2⟩
            cases pre with
            | nil =>
              simp only [List.nil_append, List.cons.injEq] at hdec
              rw [← hdec.1] at hlen2
              exact absurd hlen2 hlen
            | cons p ps =>
              simp only [List.cons_append, List.cons.injEq] at hdec
              exact absurd (hdec.1 ▸ hpre p (List.mem_cons_self p ps)) (hdec.1 ▸ ha)

/-- Witness for C6 at concrete inputs: a file with no header line is a
not-found failure, and a file whose header line is `parser ;` is a parse
failure. -/
theorem C6_header_scan_failures_witness :
    parseG4 "h.g4" ["// only a comment"] = .error G4Err.notFound ∧
    ∃ msg, parseG4 "h.g4" ["parser ;"] = .error (G4Err.parseErr msg) := by
  constructor
  · exact (C6_header_scan_failures "h.g4" ["// only a comment"]).1.mpr (by decide)
  · exact (C6_header_scan_failures "h.g4" ["parser ;"]).2.mpr
      ⟨[], "parser ;", [], rfl, by simp, by decide, by decide⟩

/-- A grammar returned by `parseG4` records the scanned path as its file. -/
theorem parseG4_filename (path : String) (g : Grammar) :
    ∀ lines, parseG4 path lines = .ok g → g.Filename = path := by
  intro lines
  induction lines with
  | nil =>
    intro h
    simp [parseG4] at h
  | cons a as ih =>
    intro h
    by_cases ha : headerType (goTrimSpace a) = ""
    · rw [parseG4_skip path a as ha] at h
      exact ih h
    · by_cases hlen : (goFields (goCutAtSemi (goTrimSpace a))).length < 2
      · rw [parseG4_short path a as ha hlen] at h
        simp at h
      · obtain ⟨nm, -, hok⟩ := parseG4_found path a as ha (not_lt.mp hlen)
        rw [hok] at h
        rw [← Except.ok.inj h]

/-- The loop processes an appended token list sequentially. -/
theorem parsePomLoop_append (env : PomEnv) (dir : String) (l1 l2 : List XmlTok) :
    ∀ p, parsePomLoop env dir p (l1 ++ l2)
      = match parsePomLoop env dir p l1 with
        | .ok q => parsePomLoop env dir q l2
        | .error e => .error e := by
  induction l1 with
  | nil => intro p; simp [parsePomLoop]
  | cons t rest ih =>
    intro p
    rw [List.cons_append]
    simp only [parsePomLoop]
    cases pomStep env dir p t with
    | error e => rfl
    | ok q => exact ih q

/-- An include reference that resolves to a path already present in
`Includes` leaves the project unchanged. -/
theorem includeStep_dup (env : PomEnv) (dir : String) (p : Project) (ref : String)
    (h : resolvedInclude env dir ref ∈ p.Includes) :
    includeStep env dir p ref = p := by
  unfold includeStep
  cases hfs : env.fs (resolvedInclude env dir ref) with
  | false => simp [hfs]
  | true => simp [hfs, h]

/-- Lemma: `includeStep` preserves the includes invariant. -/
theorem includeStep_inv (env : PomEnv) (dir : String) (p : Project) (ref : String)
    (h : includesInv p) : includesInv (includeStep env dir p ref) := by
  unfold includeStep
  cases hfs : env.fs (resolvedInclude env dir ref) with
  | false => simpa [hfs] using h
  | true =>
    by_cases hdup : resolvedInclude env dir ref ∈ p.Includes
    · simpa [hfs, hdup] using h
    · obtain ⟨h1, h2, h3⟩ := h
      have hIncNodup : (p.Includes ++ [resolvedInclude env dir ref]).Nodup := by
        rw [List.nodup_append]
        refine ⟨h1, List.nodup_singleton _, ?_⟩
        intro a ha hb
        rw [List.mem_singleton] at hb
        subst hb
        exact hdup ha
      have hc0 : ¬ ((!env.fs (resolvedInclude env dir ref)) = true) := by simp [hfs]
      have hc : ¬ (p.Includes.contains (resolvedInclude env dir ref) = true) := by
        simp [hdup]
      rw [if_neg hc0, if_neg hc]
      cases hp4 : parseG4 (resolvedInclude env dir ref)
          (env.readLines (resolvedInclude env dir ref)) with
      | error e =>
        exact ⟨hIncNodup, h2, fun f hf => List.mem_append_left _ (h3 f hf)⟩
      | ok g =>
        have hgf : g.Filename = resolvedInclude env dir ref :=
          parseG4_filename _ g _ hp4
        refine ⟨hIncNodup, ?_, ?_⟩
        · show (List.map (fun g => g.Filename) (p.Grammars ++ [g])).Nodup
          rw [List.map_append, List.nodup_append]
          refine ⟨h2, by simp, ?_⟩
          intro a ha hb
          simp only [List.map_cons, List.map_nil, List.mem_singleton, hgf] at hb
          subst hb
          exact hdup (h3 _ ha)
        · show ∀ f ∈ List.map (fun g => g.Filename) (p.Grammars ++ [g]),
            f ∈ p.Includes ++ [resolvedInclude env dir ref]
          intro f hf
          rw [List.map_append] at hf
          rcases List.mem_append.mp hf with hf | hf
          · exact List.mem_append_left _ (h3 f hf)
          · simp only [List.map_cons, List.map_nil, List.mem_singleton, hgf] at hf
            subst hf
            exact List.mem_append_right _ (List.mem_singleton_self _)

/-- One loop step preserves the includes invariant. -/
theorem pomStep_inv (env : PomEnv) (dir : String) (p : Project) (t : XmlTok) (r : Project)
    (h : includesInv p) (hs : pomStep env dir p t = .ok r) : includesInv r := by
  cases t with
  | otherTok =>
    rw [← Except.ok.inj hs]
    exact h
  | startElem nm body =>
    simp only [pomStep] at hs
    split at hs
    · cases body with
      | error e => simp at hs
      | ok s =>
        rw [← Except.ok.inj hs]
        exact h
    · split at hs
      · cases body with
        | error e => simp at hs
        | ok ref =>
          rw [← Except.ok.inj hs]
          exact includeStep_inv env dir p ref h
      · split at hs
        · cases body with
          | error e => simp at hs
          | ok s =>
            rw [← Except.ok.inj hs]
            exact h
        · split at hs
          · cases body with
            | error e => simp at hs
            | ok s =>
              rw [← Except.ok.inj hs]
              exact h
          · split at hs
            · cases body with
              | error e => simp at hs
              | ok s =>
                have hs' : (match env.glob (goJoin3 dir s "*") with
                    | Except.error e => (Except.error e : Except String Project)
                    | Except.ok examples =>
                      Except.ok { p with Examples := examples,
                                         ExampleRoot := goRepeat "../" (goCountSlash dir) })
                    = Except.ok r := hs
                cases hg : env.glob (goJoin3 dir s "*") with
                | error e => rw [hg] at hs'; simp at hs'
                | ok ls =>
                  rw [hg] at hs'
                  rw [← Except.ok.inj hs']
                  exact h
            · split at hs
              · cases body with
                | error e => simp at hs
                | ok s =>
                  rw [← Except.ok.inj hs]
                  exact h
              · rw [← Except.ok.inj hs]
                exact h

/-- The loop preserves the includes invariant. -/
theorem parsePomLoop_inv (env : PomEnv) (dir : String) :
    ∀ (toks : List XmlTok) (p q : Project), includesInv p →
      parsePomLoop env dir p toks = .ok q → includesInv q := by
  intro toks
  induction toks with
  | nil =>
    intro p q h hl
    simp only [parsePomLoop] at hl
    rw [← Except.ok.inj hl]
    exact h
  | cons t rest ih =>
    intro p q h hl
    simp only [parsePomLoop] at hl
    cases hstep : pomStep env dir p t with
    | error e => rw [hstep] at hl; simp at hl
    | ok r =>
      rw [hstep] at hl
      exact ih r q (pomStep_inv env dir p t r h hstep) hl

/-- C8: a parsed project's `Includes` holds no duplicates, each include
contributes at most one grammar (grammar files are duplicate-free and drawn
from `Includes`); and a reference resolving to a path already in `Includes`
is skipped silently, leaving the loop state unchanged. -/
theorem C8_no_duplicate_includes :
    (∀ (env : PomEnv) (path : String) (toks : List XmlTok) (se : Option String) (p : Project),
      ParsePom env path toks se = .ok p →
      p.Includes.Nodup ∧ (p.Grammars.map (fun g => g.Filename)).Nodup ∧
        ∀ f ∈ p.Grammars.map (fun g => g.Filename), f ∈ p.Includes) ∧
    (∀ (env : PomEnv) (dir : String) (p : Project) (ref : String) (rest : List XmlTok),
      resolvedInclude env dir ref ∈ p.Includes →
      parsePomLoop env dir p (XmlTok.startElem "include" (.ok ref) :: rest)
        = parsePomLoop env dir p rest) := by
  constructor
  · intro env path toks se p h
    have h0 : includesInv (emptyProject path) := by
      refine ⟨List.nodup_nil, List.nodup_nil, ?_⟩
      intro f hf
      simp [emptyProject] at hf
    exact parsePomLoop_inv env (goDir path) toks (emptyProject path) p h0 h
  · intro env dir p ref rest h
    have hstep : pomStep env dir p (XmlTok.startElem "include" (.ok ref))
        = .ok (includeStep env dir p ref) := rfl
    simp only [parsePomLoop, hstep, includeStep_dup env dir p ref h]

/-- Witness for C8: a descriptor referencing `A.g4` twice yields a project
with a single duplicate-free include and a single grammar. -/
theorem C8_no_duplicate_includes_witness :
    ParsePom envDup "d/pom.xml"
        [XmlTok.startElem "include" (.ok "A.g4"), XmlTok.startElem "include" (.ok "A.g4")] none
      = .ok pDup ∧
    pDup.Includes.Nodup ∧ (pDup.Grammars.map (fun g => g.Filename)).Nodup := by
  have h : ParsePom envDup "d/pom.xml"
      [XmlTok.startElem "include" (.ok "A.g4"), XmlTok.startElem "include" (.ok "A.g4")] none
      = .ok pDup := by decide
  have hinv := C8_no_duplicate_includes.1 envDup "d/pom.xml"
    [XmlTok.startElem "include" (.ok "A.g4"), XmlTok.startElem "include" (.ok "A.g4")] none pDup h
  exact ⟨h, hinv.1, hinv.2.1⟩

/-- C9: per-reference failures never abort the parse — an include whose
resolved path (and variant) does not exist on disk is dropped entirely, the
parse result being identical to one without that reference; and an include
whose header scan fails is recorded in `Includes` while `Grammars` is left
untouched. -/
theorem C9_per_reference_failures :
    (∀ (env : PomEnv) (path ref : String) (pre post : List XmlTok) (se : Option String),
      env.fs (goReplaceAll (goJoin (goDir path) ref) ".g4" ".GoTarget.g4") = false →
      env.fs (goJoin (goDir path) ref) = false →
      ParsePom env path (pre ++ XmlTok.startElem "include" (.ok ref) :: post) se
        = ParsePom env path (pre ++ post) se) ∧
    (∀ (env : PomEnv) (dir : String) (p : Project) (ref : String) (rest : List XmlTok)
        (e : G4Err),
      env.fs (resolvedInclude env dir ref) = true →
      resolvedInclude env dir ref ∉ p.Includes →
      parseG4 (resolvedInclude env dir ref) (env.readLines (resolvedInclude env dir ref))
        = .error e →
      parsePomLoop env dir p (XmlTok.startElem "include" (.ok ref) :: rest)
        = parsePomLoop env dir
            { p with Includes := p.Includes ++ [resolvedInclude env dir ref] } rest) := by
  constructor
  · intro env path ref pre post se hb hf
    have hres : resolvedInclude env (goDir path) ref = goJoin (goDir path) ref := by
      simp [resolvedInclude, hb]
    have hstep : ∀ q : Project, includeStep env (goDir path) q ref = q := by
      intro q
      simp [includeStep, hres, hf]
    show parsePomLoop env (goDir path) (emptyProject path)
        (pre ++ XmlTok.startElem "include" (.ok ref) :: post)
      = parsePomLoop env (goDir path) (emptyProject path) (pre ++ post)
    rw [parsePomLoop_append env (goDir path) pre (XmlTok.startElem "include" (.ok ref) :: post)
        (emptyProject path),
      parsePomLoop_append env (goDir path) pre post (emptyProject path)]
    cases parsePomLoop env (goDir path) (emptyProject path) pre with
    | error e => rfl
    | ok q =>
      have h1 : pomStep env (goDir path) q (XmlTok.startElem "include" (.ok ref))
          = .ok (includeStep env (goDir path) q ref) := rfl
      simp only [parsePomLoop, h1, hstep q]
  · intro env dir p ref rest e hf hdup hp4
    have hstep : pomStep env dir p (XmlTok.startElem "include" (.ok ref))
        = .ok (includeStep env dir p ref) := rfl
    have hinc : includeStep env dir p ref
        = { p with Includes := p.Includes ++ [resolvedInclude env dir ref] } := by
      unfold includeStep
      have hc0 : ¬ ((!env.fs (resolvedInclude env dir ref)) = true) := by simp [hf]
      have hc : ¬ (p.Includes.contains (resolvedInclude env dir ref) = true) := by
        simp [hdup]
      rw [if_neg hc0, if_neg hc, hp4]
    simp only [parsePomLoop, hstep, hinc]

/-- Witness for C9: a missing include reference leaves the parse result of
the surrounding descriptor unchanged, and a well-formed header scan failure
scenario extends only `Includes`. -/
theorem C9_per_reference_failures_witness :
    ParsePom envTriv "d/pom.xml"
        [XmlTok.startElem "grammarName" (.ok "N"), XmlTok.startElem "include" (.ok "missing.g4")]
        none
      = ParsePom envTriv "d/pom.xml" [XmlTok.startElem "grammarName" (.ok "N")] none :=
  C9_per_reference_failures.1 envTriv "d/pom.xml" "missing.g4"
    [XmlTok.startElem "grammarName" (.ok "N")] [] none rfl rfl

/-- The loop never fails when every recognized element's body decoded and
every glob succeeds. -/
theorem parsePomLoop_total (env : PomEnv) (dir : String) :
    ∀ toks : List XmlTok,
    (∀ nm body, XmlTok.startElem nm body ∈ toks → recognizedElem nm = true →
      ∃ s, body = Except.ok s) →
    (∀ q, ∃ ls, env.glob q = .ok ls) →
    ∀ p, ∃ r, parsePomLoop env dir p toks = .ok r := by
  intro toks
  induction toks with
  | nil =>
    intro _ _ p
    exact ⟨p, rfl⟩
  | cons t rest ih =>
    intro hb hg p
    have hbrest : ∀ nm body, XmlTok.startElem nm body ∈ rest → recognizedElem nm = true →
        ∃ s, body = Except.ok s :=
      fun nm body hm hr => hb nm body (List.mem_cons_of_mem _ hm) hr
    have hstep : ∃ q, pomStep env dir p t = .ok q := by
      cases t with
      | otherTok => exact ⟨p, rfl⟩
      | startElem nm body =>
        by_cases h1 : nm = "artifactId"
        · obtain ⟨s, hs⟩ := hb nm body (List.mem_cons_self _ _) (by simp [recognizedElem, h1])
          subst hs
          subst h1
          exact ⟨_, rfl⟩
        · by_cases h2 : nm = "grammars" ∨ nm = "include"
          · obtain ⟨s, hs⟩ := hb nm body (List.mem_cons_self _ _)
              (by rcases h2 with h | h <;> simp [recognizedElem, h])
            subst hs
            rcases h2 with h2 | h2 <;> subst h2 <;> exact ⟨_, rfl⟩
          · by_cases h3 : nm = "grammarName"
            · obtain ⟨s, hs⟩ := hb nm body (List.mem_cons_self _ _)
                (by simp [recognizedElem, h3])
              subst hs
              subst h3
              exact ⟨_, rfl⟩
            · by_cases h4 : nm = "entryPoint"
              · obtain ⟨s, hs⟩ := hb nm body (List.mem_cons_self _ _)
                  (by simp [recognizedElem, h4])
                subst hs
                subst h4
                exact ⟨_, rfl⟩
              · by_cases h5 : nm = "exampleFiles"
                · obtain ⟨s, hs⟩ := hb nm body (List.mem_cons_self _ _)
                    (by simp [recognizedElem, h5])
                  subst hs
                  subst h5
                  obtain ⟨ls, hgl⟩ := hg (goJoin3 dir s "*")
                  refine ⟨{ p with Examples := ls,
                                   ExampleRoot := goRepeat "../" (goCountSlash dir) }, ?_⟩
                  have hred : pomStep env dir p (XmlTok.startElem "exampleFiles" (.ok s))
                      = (match env.glob (goJoin3 dir s "*") with
                         | Except.error e => (Except.error e : Except String Project)
                         | Except.ok examples =>
                           Except.ok { p with Examples := examples,
                                              ExampleRoot := goRepeat "../" (goCountSlash dir) })
                      := rfl
                  rw [hred, hgl]
                · by_cases h6 : nm = "caseInsensitiveType"
                  · obtain ⟨s, hs⟩ := hb nm body (List.mem_cons_self _ _)
                      (by simp [recognizedElem, h6])
                    subst hs
                    subst h6
                    exact ⟨_, rfl⟩
                  · exact ⟨p, by simp [pomStep, h1, h2, h3, h4, h5, h6]⟩
    obtain ⟨q, hq⟩ := hstep
    obtain ⟨r, hr⟩ := ih hbrest hg q
    refine ⟨r, ?_⟩
    simp only [parsePomLoop, hq]
    exact hr

/-- C10: a tokenizer error ending the stream is discarded — the result is
the same as for a cleanly ended stream — and when every recognized element's
body decodes (and globbing succeeds), the partially populated project is
returned with no error. -/
theorem C10_stream_error_discarded :
    ∀ (env : PomEnv) (path : String) (toks : List XmlTok) (e : String),
    ParsePom env path toks (some e) = ParsePom env path toks none ∧
    ((∀ nm body, XmlTok.startElem nm body ∈ toks → recognizedElem nm = true →
        ∃ s, body = Except.ok s) →
      (∀ q, ∃ ls, env.glob q = .ok ls) →
      ∃ p, ParsePom env path toks (some e) = .ok p) := by
  intro env path toks e
  refine ⟨rfl, fun hb hg => ?_⟩
  exact parsePomLoop_total env (goDir path) toks hb hg (emptyProject path)

/-- Witness for C10: a stream cut short by `unexpected EOF` after one
decoded element still yields a project and a nil error. -/
theorem C10_stream_error_discarded_witness :
    ∃ p, ParsePom envTriv "p/pom.xml"
        [XmlTok.startElem "grammarName" (.ok "X"), XmlTok.otherTok] (some "unexpected EOF")
      = .ok p := by
  refine (C10_stream_error_discarded envTriv "p/pom.xml"
    [XmlTok.startElem "grammarName" (.ok "X"), XmlTok.otherTok] "unexpected EOF").2 ?_ ?_
  · intro nm body hm _
    simp only [List.mem_cons, List.mem_singleton] at hm
    rcases hm with hm | hm
    · obtain ⟨-, hbody⟩ := XmlTok.startElem.inj hm
      exact ⟨"X", hbody⟩
    · exact absurd hm (by simp)
  · exact fun q => ⟨[], rfl⟩

/-- C4: the claim is false — the variant path `ParsePom` probes substitutes
EVERY occurrence of `.g4`, not only the first: for the reference `a.g4.g4`
(resolved to `d/a.g4.g4`), with both candidate variants present on disk, the
path used is `d/a.GoTarget.g4.GoTarget.g4`, not the first-occurrence
substitution `d/a.GoTarget.g4.g4`. -/
theorem C4_counterexample :
    specReplaceFirst (goJoin (goDir "d/pom.xml") "a.g4.g4") ".g4" ".GoTarget.g4"
      = "d/a.GoTarget.g4.g4" ∧
    envC4.fs "d/a.GoTarget.g4.g4" = true ∧
    ParsePom envC4 "d/pom.xml" [XmlTok.startElem "include" (.ok "a.g4.g4")] none = .ok pC4 ∧
    pC4.Includes = ["d/a.GoTarget.g4.GoTarget.g4"] ∧
    ("d/a.GoTarget.g4.GoTarget.g4" : String) ≠ "d/a.GoTarget.g4.g4" :=
  ⟨by decide, by decide, by decide, by decide, by decide⟩

/-- C4 (amended): the probed variant substitutes every occurrence of `.g4`
in the resolved path with `.GoTarget.g4`; when that variant exists it is the
path used, otherwise the literal resolved path is used when it exists. -/
theorem C4_variant_upgrade :
    (∀ (env : PomEnv) (path ref : String) (se : Option String),
      env.fs (goReplaceAll (goJoin (goDir path) ref) ".g4" ".GoTarget.g4") = true →
      ∃ p, ParsePom env path [XmlTok.startElem "include" (.ok ref)] se = .ok p ∧
        p.Includes = [goReplaceAll (goJoin (goDir path) ref) ".g4" ".GoTarget.g4"]) ∧
    (∀ (env : PomEnv) (path ref : String) (se : Option String),
      env.fs (goReplaceAll (goJoin (goDir path) ref) ".g4" ".GoTarget.g4") = false →
      env.fs (goJoin (goDir path) ref) = true →
      ∃ p, ParsePom env path [XmlTok.startElem "include" (.ok ref)] se = .ok p ∧
        p.Includes = [goJoin (goDir path) ref]) := by
  constructor
  · intro env path ref se h
    refine ⟨includeStep env (goDir path) (emptyProject path) ref, rfl, ?_⟩
    unfold includeStep
    have hres : resolvedInclude env (goDir path) ref
        = goReplaceAll (goJoin (goDir path) ref) ".g4" ".GoTarget.g4" := by
      simp [resolvedInclude, h]
    rw [hres]
    have hc0 : ¬ ((!env.fs (goReplaceAll (goJoin (goDir path) ref) ".g4" ".GoTarget.g4"))
        = true) := by simp [h]
    rw [if_neg hc0]
    have hc : ¬ (((emptyProject path).Includes).contains
        (goReplaceAll (goJoin (goDir path) ref) ".g4" ".GoTarget.g4") = true) := by
      simp [emptyProject]
    rw [if_neg hc]
    cases parseG4 (goReplaceAll (goJoin (goDir path) ref) ".g4" ".GoTarget.g4")
        (env.readLines (goReplaceAll (goJoin (goDir path) ref) ".g4" ".GoTarget.g4")) with
    | error e => simp [emptyProject]
    | ok g => simp [emptyProject]
  · intro env path ref se hb hf
    refine ⟨includeStep env (goDir path) (emptyProject path) ref, rfl, ?_⟩
    unfold includeStep
    have hres : resolvedInclude env (goDir path) ref = goJoin (goDir path) ref := by
      simp [resolvedInclude, hb]
    rw [hres]
    have hc0 : ¬ ((!env.fs (goJoin (goDir path) ref)) = true) := by simp [hf]
    rw [if_neg hc0]
    have hc : ¬ (((emptyProject path).Includes).contains (goJoin (goDir path) ref) = true) := by
      simp [emptyProject]
    rw [if_neg hc]
    cases parseG4 (goJoin (goDir path) ref) (env.readLines (goJoin (goDir path) ref)) with
    | error e => simp [emptyProject]
    | ok g => simp [emptyProject]

/-- Witness for C4 (amended) in the two-variant environment. -/
theorem C4_variant_upgrade_witness :
    ∃ p, ParsePom envC4 "d/pom.xml" [XmlTok.startElem "include" (.ok "a.g4.g4")] none = .ok p ∧
      p.Includes = [goReplaceAll (goJoin (goDir "d/pom.xml") "a.g4.g4") ".g4" ".GoTarget.g4"] :=
  C4_variant_upgrade.1 envC4 "d/pom.xml" "a.g4.g4" none (by decide)

end Pom
